import Mathlib

set_option maxRecDepth 8192

/-!
Verification of the novelty-tracking engine of `job_monitor.py`.

The Python source is shallowly embedded below.  Strings are modelled as
Lean `String`/`List Char` (inputs of interest are ASCII, so Python's
`str.lower`/`str.strip` are modelled by their ASCII behaviour); timestamps
(`datetime`) are modelled as `Int` seconds, with one `now` per run;
Python dicts are modelled as association lists (`alget`/`alset`); network
and browser effects are modelled as environment parameters (the texts a
page yields, the JSON a Greenhouse API call yields), with `Except Unit`
marking an adapter-level exception.  `hashlib.md5(...).hexdigest()` is
implemented in full over UTF-8 byte lists.
-/

/-- Python dict lookup on an association list (first binding wins). -/
def alget {β : Type} : List (String × β) → String → Option β
  | [], _ => none
  | (a, b) :: rest, k => if a = k then some b else alget rest k

/-- Python dict assignment: replace the binding in place, else append. -/
def alset {β : Type} : List (String × β) → String → β → List (String × β)
  | [], k, v => [(k, v)]
  | (a, b) :: rest, k, v =>
    if a = k then (a, v) :: rest else (a, b) :: alset rest k v

/-- Python `l[-n:]`. -/
def takeLast {α : Type} (n : Nat) (l : List α) : List α :=
  l.drop (l.length - n)

/-- ASCII lowering of one character (`str.lower` restricted to ASCII). -/
def lowerChar (c : Char) : Char :=
  if 'A' ≤ c ∧ c ≤ 'Z' then Char.ofNat (c.toNat + 32) else c

def lowerList (l : List Char) : List Char := l.map lowerChar

/-- Python whitespace for `str.strip`. -/
def isSpaceCh (c : Char) : Bool :=
  c = ' ' ∨ c = '\t' ∨ c = '\n' ∨ c = '\r' ∨ c = '\x0b' ∨ c = '\x0c'

/-- Python `str.strip()`. -/
def pyStrip (l : List Char) : List Char :=
  ((l.dropWhile isSpaceCh).reverse.dropWhile isSpaceCh).reverse

/-- Here `leadsWith pat s` means: `s` starts with `pat` (exact characters). -/
def leadsWith : List Char → List Char → Bool
  | [], _ => true
  | _ :: _, [] => false
  | a :: as, b :: bs => a = b && leadsWith as bs

/-- Here `hasSubstr s pat` is Python `pat in s`. -/
def hasSubstr : List Char → List Char → Bool
  | [], pat => pat.isEmpty
  | c :: rest, pat => leadsWith pat (c :: rest) || hasSubstr rest pat

/-- The `junk_patterns` list of `is_junk_text`. -/
def junk_patterns : List String :=
  ["cookie", "consent", "privacy", "manage preferences", "cookie list",
   "do not sell", "help center", "about us", "newsroom", "investors",
   "careers blog", "start job search", "deliver", "uber for business",
   "uber freight", "safety", "sustainability", "accessibility",
   "view role", "read more", "submit resume", "connect with",
   "visit help center", "google data policy", "multiple locations",
   "engineering", "facebook", "instagram", "ai infrastructure",
   "advertising technology", "ai research", "ar/vr", "artificial intelligence",
   "data & analytics", "facebook reality labs", "generative ai",
   "infrastructure", "global", "meta$", "uber$", "careers$",
   "all departments", "all locations", "no positions available",
   "inside uber", "view all", "load more", "show more"]

/-- The single-generic-word stoplist of `is_junk_text`. -/
def stop_words : List String :=
  ["engineering", "sales", "marketing", "design", "global", "meta",
   "facebook", "instagram"]

/-- The `job_keywords` list of `is_junk_text`. -/
def job_keywords : List String :=
  ["product", "program", "project", "manager", "engineer", "developer",
   "analyst", "designer", "scientist"]

/-- Embeds `JobBoardMonitor.is_junk_text`: rejects short text, text containing a
junk pattern (on the lowered, stripped text), a single stoplist word, and
short (< 20 chars) text without a job keyword. -/
def is_junk_text (text : String) : Bool :=
  if text.length < 5 then true
  else if junk_patterns.any
      (fun p => hasSubstr (pyStrip (lowerList text.toList)) p.toList) then true
  else if (! text.toList.contains ' ') && stop_words.any
      (fun w => pyStrip (lowerList text.toList) = w.toList) then true
  else if text.length < 20 then
    if job_keywords.any
        (fun k => hasSubstr (pyStrip (lowerList text.toList)) k.toList) then false
    else true
  else false

/-- One history entry value in the persisted `job_history` JSON: a dict with
a `title` and possibly a `first_seen` ISO timestamp string. -/
structure JobInfo where
  title : String
  first_seen : Option String
deriving DecidableEq, Repr

/-- One company's value in the `job_history` JSON: either the legacy list
format or the dict-of-entries format. -/
inductive CompanyJobs
  | legacy (ids : List String)
  | modern (entries : List (String × JobInfo))
deriving DecidableEq, Repr

/-- Part of `JobBoardMonitor.clean_old_jobs`, parameterised by the ISO-timestamp
parse (`datetime.fromisoformat`; `none` models a raised `ValueError`) and
by `now` in seconds: the per-company dict rebuild for the modern format. -/
def cleanModern (parse : String → Option Int) (weekAgo : Int) :
    List (String × JobInfo) → List (String × JobInfo) :=
  fun entries => entries.foldl (fun acc q =>
    match q.2.first_seen with
    | none => acc
    | some s =>
      match parse s with
      | some t => if weekAgo < t then acc ++ [q] else acc
      | none => acc ++ [q]) []

/-- Embeds `JobBoardMonitor.clean_old_jobs`: legacy lists are truncated to the
last 100, modern dicts are rebuilt keeping only sufficiently fresh (or
unparseable) `first_seen` entries.  `timedelta(days=7)` is 604800 s. -/
def clean_old_jobs (parse : String → Option Int) (now : Int) :
    List (String × CompanyJobs) → List (String × CompanyJobs)
  | [] => []
  | (c, CompanyJobs.legacy ids) :: rest =>
    (c, CompanyJobs.legacy (takeLast 100 ids)) :: clean_old_jobs parse now rest
  | (c, CompanyJobs.modern es) :: rest =>
    (c, CompanyJobs.modern (cleanModern parse (now - 7 * 86400) es))
      :: clean_old_jobs parse now rest

/-- The keep-predicate `clean_old_jobs` implements for a modern entry:
present `first_seen` that is either unparseable or newer than a week ago. -/
def keepEntry (parse : String → Option Int) (now : Int) (info : JobInfo) : Bool :=
  match info.first_seen with
  | none => false
  | some s =>
    match parse s with
    | some t => decide (now - 7 * 86400 < t)
    | none => true

/-- Case-insensitive literal consumption: drop `lit` from the front of `s`
(matching the regexes' `re.IGNORECASE`), returning the rest on success. -/
def dropLitCI : List Char → List Char → Option (List Char)
  | [], s => some s
  | _ :: _, [] => none
  | a :: as, b :: bs => if lowerChar a = lowerChar b then dropLitCI as bs else none

/-- Regex `\w` (ASCII reading). -/
def isWordCh (c : Char) : Bool := c.isAlpha || c.isDigit || c = '_'

/-- Match `Job ID:\s*(\d+)` at the start of `s`, returning the capture. -/
def tryJobIdColon (s : List Char) : Option (List Char) :=
  match dropLitCI "Job ID:".toList s with
  | none => none
  | some r =>
    let ds := (r.dropWhile isSpaceCh).takeWhile Char.isDigit
    if ds.isEmpty then none else some ds

/-- Match `job[_-]?id[:\s]+(\w+)` at the start of `s`. -/
def tryJobUid (s : List Char) : Option (List Char) :=
  match dropLitCI "job".toList s with
  | none => none
  | some r =>
    let r1 := match r with
      | c :: cs => if c = '_' ∨ c = '-' then cs else c :: cs
      | [] => []
    match dropLitCI "id".toList r1 with
    | none => none
    | some r2 =>
      if (r2.takeWhile (fun c => c = ':' || isSpaceCh c)).isEmpty then none
      else
        let w := (r2.dropWhile (fun c => c = ':' || isSpaceCh c)).takeWhile isWordCh
        if w.isEmpty then none else some w

/-- Match `#(\d{5,})` at the start of `s`. -/
def tryHashNum (s : List Char) : Option (List Char) :=
  match s with
  | '#' :: r =>
    let ds := r.takeWhile Char.isDigit
    if 5 ≤ ds.length then some ds else none
  | _ => none

/-- Match `ID:\s*(\w+)` at the start of `s`. -/
def tryIdColon (s : List Char) : Option (List Char) :=
  match dropLitCI "ID:".toList s with
  | none => none
  | some r =>
    let w := (r.dropWhile isSpaceCh).takeWhile isWordCh
    if w.isEmpty then none else some w

/-- Models `re.search`: try the position matcher at every position, left to right. -/
def searchFrom (tryAt : List Char → Option (List Char)) : List Char → Option (List Char)
  | [] => tryAt []
  | c :: cs =>
    match tryAt (c :: cs) with
    | some r => some r
    | none => searchFrom tryAt cs

/-- The `job_id_patterns` loop of `extract_job_id`: first pattern that
matches anywhere wins, yielding its capture group. -/
def findPatternId (t : List Char) : Option (List Char) :=
  match searchFrom tryJobIdColon t with
  | some g => some g
  | none =>
    match searchFrom tryJobUid t with
    | some g => some g
    | none =>
      match searchFrom tryHashNum t with
      | some g => some g
      | none => searchFrom tryIdColon t

/-- Does `(Today|Yesterday|\d+ days? ago)` match at this position
(case-sensitive, as in the source)? -/
def dateTokenAt (s : List Char) : Bool :=
  leadsWith "Today".toList s || leadsWith "Yesterday".toList s ||
    (!(s.takeWhile Char.isDigit).isEmpty &&
      (leadsWith " days ago".toList (s.dropWhile Char.isDigit) ||
       leadsWith " day ago".toList (s.dropWhile Char.isDigit)))

/-- Does `(Locations?|Posted|Updated)` match at this position? -/
def metaTokenAt (s : List Char) : Bool :=
  leadsWith "Location".toList s || leadsWith "Posted".toList s ||
    leadsWith "Updated".toList s

/-- Models `re.sub` with a to-end-of-line pattern: delete, at each match position, the
match and the rest of its line (`.` does not cross a newline).  `deleting`
is true while inside a deleted region. -/
def subToEolAux (p : List Char → Bool) (deleting : Bool) : List Char → List Char
  | [] => []
  | c :: cs =>
    if deleting then
      if c = '\n' then c :: subToEolAux p false cs
      else subToEolAux p true cs
    else if p (c :: cs) then subToEolAux p true cs
    else c :: subToEolAux p false cs

def subToEol (p : List Char → Bool) (l : List Char) : List Char :=
  subToEolAux p false l

/-- Python `text.split(sep)[0]` for a non-empty separator. -/
def takeBefore (sep : List Char) : List Char → List Char
  | [] => []
  | c :: cs => if leadsWith sep (c :: cs) then [] else c :: takeBefore sep cs

/-- The title-cleaning fallback of `extract_job_id`: strip, delete
date/location metadata to end of line, split on the (mojibake) bullet
`'‚Ä¢'`, on `|` and on newline, strip, first 100 chars. -/
def cleanTitle (text : List Char) : List Char :=
  (pyStrip
    (takeBefore ['\n']
      (takeBefore ['|']
        (takeBefore ['‚', 'Ä', '¢']
          (subToEol metaTokenAt
            (subToEol dateTokenAt (pyStrip text))))))).take 100

/-- UTF-8 encoding of one character, as byte values. -/
def utf8Char (c : Char) : List Nat :=
  let n := c.toNat
  if n < 128 then [n]
  else if n < 2048 then [192 + n / 64, 128 + n % 64]
  else if n < 65536 then [224 + n / 4096, 128 + n / 64 % 64, 128 + n % 64]
  else [240 + n / 262144, 128 + n / 4096 % 64, 128 + n / 64 % 64, 128 + n % 64]

def utf8Bytes (l : List Char) : List Nat := (l.map utf8Char).flatten

/-- MD5 per-round constants (`floor(2^32 * abs(sin(i+1)))`). -/
def md5K : List Nat :=
  [0xd76aa478, 0xe8c7b756, 0x242070db, 0xc1bdceee,
   0xf57c0faf, 0x4787c62a, 0xa8304613, 0xfd469501,
   0x698098d8, 0x8b44f7af, 0xffff5bb1, 0x895cd7be,
   0x6b901122, 0xfd987193, 0xa679438e, 0x49b40821,
   0xf61e2562, 0xc040b340, 0x265e5a51, 0xe9b6c7aa,
   0xd62f105d, 0x02441453, 0xd8a1e681, 0xe7d3fbc8,
   0x21e1cde6, 0xc33707d6, 0xf4d50d87, 0x455a14ed,
   0xa9e3e905, 0xfcefa3f8, 0x676f02d9, 0x8d2a4c8a,
   0xfffa3942, 0x8771f681, 0x6d9d6122, 0xfde5380c,
   0xa4beea44, 0x4bdecfa9, 0xf6bb4b60, 0xbebfbc70,
   0x289b7ec6, 0xeaa127fa, 0xd4ef3085, 0x04881d05,
   0xd9d4d039, 0xe6db99e5, 0x1fa27cf8, 0xc4ac5665,
   0xf4292244, 0x432aff97, 0xab9423a7, 0xfc93a039,
   0x655b59c3, 0x8f0ccc92, 0xffeff47d, 0x85845dd1,
   0x6fa87e4f, 0xfe2ce6e0, 0xa3014314, 0x4e0811a1,
   0xf7537e82, 0xbd3af235, 0x2ad7d2bb, 0xeb86d391]

/-- MD5 per-round left-rotation amounts. -/
def md5S : List Nat :=
  [7, 12, 17, 22, 7, 12, 17, 22, 7, 12, 17, 22, 7, 12, 17, 22,
   5, 9, 14, 20, 5, 9, 14, 20, 5, 9, 14, 20, 5, 9, 14, 20,
   4, 11, 16, 23, 4, 11, 16, 23, 4, 11, 16, 23, 4, 11, 16, 23,
   6, 10, 15, 21, 6, 10, 15, 21, 6, 10, 15, 21, 6, 10, 15, 21]

structure MD5St where
  a : Nat
  b : Nat
  c : Nat
  d : Nat
deriving DecidableEq, Repr

def md5Init : MD5St := ⟨0x67452301, 0xefcdab89, 0x98badcfe, 0x10325476⟩

def m32 : Nat := 0x100000000

def rotl32 (x n : Nat) : Nat := ((x <<< n) + (x >>> (32 - n))) % m32

def mnot (x : Nat) : Nat := 0xffffffff - x

def md5round (M : List Nat) (st : MD5St) (i : Nat) : MD5St :=
  let f :=
    if i < 16 then (st.b &&& st.c) ||| (mnot st.b &&& st.d)
    else if i < 32 then (st.d &&& st.b) ||| (mnot st.d &&& st.c)
    else if i < 48 then st.b ^^^ st.c ^^^ st.d
    else st.c ^^^ (st.b ||| mnot st.d)
  let g :=
    if i < 16 then i
    else if i < 32 then (5 * i + 1) % 16
    else if i < 48 then (3 * i + 5) % 16
    else (7 * i) % 16
  let h := (f + st.a + md5K.getD i 0 + M.getD g 0) % m32
  ⟨st.d, (st.b + rotl32 h (md5S.getD i 0)) % m32, st.b, st.c⟩

def md5block (st : MD5St) (M : List Nat) : MD5St :=
  let r := (List.range 64).foldl (md5round M) st
  ⟨(st.a + r.a) % m32, (st.b + r.b) % m32, (st.c + r.c) % m32, (st.d + r.d) % m32⟩

/-- MD5 padding: `0x80`, zeros to 56 mod 64, 8-byte little-endian bit length. -/
def md5pad (msg : List Nat) : List Nat :=
  msg ++ 128 :: List.replicate ((120 - (msg.length + 1) % 64) % 64) 0
      ++ (List.range 8).map (fun i => ((8 * msg.length) >>> (8 * i)) % 256)

/-- Little-endian 32-bit words of a byte list. -/
def toWords : List Nat → List Nat
  | b0 :: b1 :: b2 :: b3 :: rest =>
    (b0 + 256 * b1 + 65536 * b2 + 16777216 * b3) :: toWords rest
  | _ => []

def md5loop : Nat → MD5St → List Nat → MD5St
  | 0, st, _ => st
  | n + 1, st, ws => md5loop n (md5block st (ws.take 16)) (ws.drop 16)

def hexDigit (n : Nat) : Char :=
  if n < 10 then Char.ofNat (48 + n) else Char.ofNat (87 + n)

def byteHex (b : Nat) : List Char := [hexDigit (b / 16), hexDigit (b % 16)]

def wordBytesLE (w : Nat) : List Nat :=
  [w % 256, (w >>> 8) % 256, (w >>> 16) % 256, (w >>> 24) % 256]

/-- Embeds `hashlib.md5(data).hexdigest()`. -/
def md5Hex (msg : List Nat) : String :=
  let ws := toWords (md5pad msg)
  let st := md5loop (ws.length / 16) md5Init ws
  String.mk (((wordBytesLE st.a ++ wordBytesLE st.b ++ wordBytesLE st.c
      ++ wordBytesLE st.d).map byteHex).flatten)

/-- Embeds `JobBoardMonitor.extract_job_id`: first a pattern-extracted id
(`company_<id>`), else the md5 hex digest of `company_<cleaned title>`. -/
def extract_job_id (job_text : String) (company : String) : String :=
  match findPatternId job_text.toList with
  | some g => company ++ "_" ++ String.mk g
  | none => md5Hex (utf8Bytes ((company ++ "_").toList ++ cleanTitle job_text.toList))

/-- URL with an explicit scheme, the spec's "absolute" URL. -/
def isAbsoluteUrl (url : String) : Bool :=
  leadsWith "http://".toList url.toList || leadsWith "https://".toList url.toList

/-- The Identity Resolver exactly as the spec words it (§4.2), stated for
comparison with `extract_job_id`: external id first, else hash of an
absolute URL, else hash of the normalized title.  The digest is the same
md5 used by the code; title normalization reuses the code's cleaning. -/
def resolve_key_spec (source title url : String) (external_id : Option String) : String :=
  match external_id with
  | some i => source ++ i
  | none =>
    if url ≠ "" && isAbsoluteUrl url then source ++ md5Hex (utf8Bytes url.toList)
    else source ++ md5Hex (utf8Bytes (cleanTitle title.toList))

/-- A persisted `job_history` entry: title and first-seen time (the
`datetime.now().isoformat()` of creation, modelled in seconds). -/
structure HistEntry where
  title : String
  first_seen : Int
deriving DecidableEq, Repr

/-- One element of `self.new_jobs`.  The source dict carries company,
job_title, optional location, url and timestamp; `job_id` additionally
records the derived key of the candidate that produced the entry, so that
properties about keys in the novel set can be stated. -/
structure NewJob where
  company : String
  job_title : String
  location : String
  url : String
  timestamp : Int
  job_id : String
deriving DecidableEq, Repr

/-- The monitor's mutable state: `self.job_history`, `self.sent_jobs`,
`self.new_jobs`. -/
structure MonState where
  job_history : List (String × List (String × HistEntry))
  sent_jobs : List (String × List String)
  new_jobs : List NewJob
deriving DecidableEq, Repr

/-- Embeds `JobBoardMonitor.is_truly_new_job`. -/
def is_truly_new_job (sent_jobs : List (String × List String))
    (job_id company : String) : Bool :=
  match alget sent_jobs company with
  | some l => ! l.contains job_id
  | none => true

/-- The `if job_id not in self.job_history[company]` insertion (creating
the company dict if absent); a present entry is left untouched. -/
def histInsert (st : MonState) (company job_id title : String) (now : Int) : MonState :=
  if (alget ((alget st.job_history company).getD []) job_id).isSome then st
  else
    let h := ((alget st.job_history company).getD []) ++ [(job_id, ⟨title, now⟩)]
    { st with job_history := alset st.job_history company h }

/-- The shared tail of both scrape loops once a candidate key is accepted:
append to the per-scrape `jobs` list, record the history entry if absent,
and append to `new_jobs` when `is_truly_new_job` holds. -/
def addJob (company joburl location : String) (now : Int) (st : MonState)
    (jobs : List (String × String)) (job_id job_title : String) :
    MonState × List (String × String) :=
  let st1 := histInsert st company job_id job_title now
  if is_truly_new_job st1.sent_jobs job_id company then
    ({ st1 with new_jobs :=
        st1.new_jobs ++ [⟨company, job_title, location, joburl, now, job_id⟩] },
      jobs ++ [(job_id, job_title)])
  else (st1, jobs ++ [(job_id, job_title)])

/-- One element-processing step of `scrape_job_board`'s inner loop:
length/junk filter, key derivation, duplicate skip, then `addJob`. -/
def scrapeStep (company url : String) (now : Int)
    (acc : MonState × List (String × String)) (text : String) :
    MonState × List (String × String) :=
  if text.length ≤ 5 then acc
  else if is_junk_text text then acc
  else
    if (acc.2.map Prod.fst).contains (extract_job_id text company) then acc
    else addJob company url "" now acc.1 acc.2 (extract_job_id text company)
      (String.mk ((pyStrip text.toList).take 100))

/-- Embeds `JobBoardMonitor.scrape_job_board`: the browser environment is the
list of element texts the configured selectors yield, across pages (the
`jobs` accumulator persists across selector hits and pages); an
exception (navigation failure, timeout) is caught in the function and
yields the empty result. -/
def scrape_job_board (company url : String) (fetch : Except Unit (List String))
    (now : Int) (st : MonState) : List (String × String) × MonState :=
  match fetch with
  | Except.error _ => ([], st)
  | Except.ok texts =>
    let acc := texts.foldl (scrapeStep company url now) (st, [])
    (acc.2, acc.1)

/-- One job object from the Greenhouse boards API (fields already read
with `.get(..., '')` and the id stringified). -/
structure GHJob where
  id : String
  title : String
  location : String
deriving DecidableEq, Repr

/-- Location allow-list of the main Greenhouse loop. -/
def ghMainLoc : List String :=
  ["United States", "USA", "US", "New York", "San Francisco", "Remote",
   "Seattle", "Mountain View"]

/-- Location allow-list of the department Greenhouse loop. -/
def ghDeptLoc : List String :=
  ["United States", "USA", "US", "New York", "San Francisco", "Remote",
   "Seattle"]

/-- Title keywords of both Greenhouse loops. -/
def ghKw : List String := ["product", "program", "project", "manager", "technical"]

def locAny (locs : List String) (location : String) : Bool :=
  locs.any (fun l => hasSubstr location.toList l.toList)

def kwAny (title : String) : Bool :=
  ghKw.any (fun k => hasSubstr (lowerList title.toList) k.toList)

def ghUrl (tok : String) : String := "https://boards.greenhouse.io/" ++ tok

/-- One step of the main Greenhouse jobs loop: filters, then `addJob`
(note: no duplicate check in this loop). -/
def ghStepMain (company tok : String) (now : Int)
    (acc : MonState × List (String × String)) (job : GHJob) :
    MonState × List (String × String) :=
  if locAny ghMainLoc job.location && kwAny job.title then
    addJob company (ghUrl tok) job.location now acc.1 acc.2
      (company ++ "_gh_" ++ job.id) job.title
  else acc

/-- One step of the department Greenhouse loop: duplicate check first,
then the (slightly different) filters, then `addJob`. -/
def ghStepDept (company tok : String) (now : Int)
    (acc : MonState × List (String × String)) (job : GHJob) :
    MonState × List (String × String) :=
  if (acc.2.map Prod.fst).contains (company ++ "_gh_" ++ job.id) then acc
  else if locAny ghDeptLoc job.location && kwAny job.title then
    addJob company (ghUrl tok) job.location now acc.1 acc.2
      (company ++ "_gh_" ++ job.id) job.title
  else acc

/-- Embeds `JobBoardMonitor.scrape_greenhouse_api`: the environment is the main
jobs list (`Except.error` models a request exception, which the function
catches and turns into the empty result) and the per-department job lists
(of which at most 10 are visited). -/
def scrape_greenhouse_api (company tok : String) (api : Except Unit (List GHJob))
    (deptJobs : List (List GHJob)) (now : Int) (st : MonState) :
    List (String × String) × MonState :=
  match api with
  | Except.error _ => ([], st)
  | Except.ok jobList =>
    let acc := jobList.foldl (ghStepMain company tok now) (st, [])
    let acc := (deptJobs.take 10).foldl
      (fun a dj => dj.foldl (ghStepDept company tok now) a) acc
    (acc.2, acc.1)

/-- Per-source scraping environment: a plain Playwright source, or a
Greenhouse source (API first, Playwright fallback when it yields nothing). -/
inductive BoardEnv
  | playwright (fetch : Except Unit (List String))
  | greenhouse (tok : String) (api : Except Unit (List GHJob))
      (deptJobs : List (List GHJob)) (fallback : Except Unit (List String))

/-- One configured source: its name, its configured url, its environment. -/
structure Board where
  company : String
  url : String
  env : BoardEnv

/-- The `for job_id, _ in jobs` append-if-absent loop of `check_all_boards`. -/
def appendNewIds (cur ids : List String) : List String :=
  ids.foldl (fun l i => if l.contains i then l else l ++ [i]) cur

/-- The full per-source `sent_jobs` update: append the scraped ids that
are not yet present, then keep only the last 200 (`[-200:]`). -/
def updateSentList (cur ids : List String) : List String :=
  takeLast 200 (appendNewIds cur ids)

/-- The scraping dispatch of `check_all_boards`: Greenhouse API first for
Greenhouse sources, falling back to the Playwright scrape when it yields
no jobs. -/
def boardJobs (now : Int) (st : MonState) (b : Board) :
    List (String × String) × MonState :=
  match b.env with
  | BoardEnv.playwright fetch => scrape_job_board b.company b.url fetch now st
  | BoardEnv.greenhouse tok api depts fallback =>
    let r := scrape_greenhouse_api b.company tok api depts now st
    if r.1.isEmpty then scrape_job_board b.company b.url fallback now r.2 else r

/-- One iteration of `check_all_boards`'s company loop: scrape, then
update and trim `self.sent_jobs[company]`. -/
def checkBoardStep (now : Int) (st : MonState) (b : Board) : MonState :=
  let r := boardJobs now st b
  let v := updateSentList ((alget r.2.sent_jobs b.company).getD []) (r.1.map Prod.fst)
  { r.2 with sent_jobs := alset r.2.sent_jobs b.company v }


/-- Embeds `JobBoardMonitor.check_all_boards`. -/
def check_all_boards (now : Int) (boards : List Board) (st : MonState) : MonState :=
  boards.foldl (checkBoardStep now) st

/-- Embeds `JobBoardMonitor.send_email_notification`: renders and sends the
digest; it mutates none of `job_history`/`sent_jobs`/`new_jobs`, and the
`delivered` flag (SMTP success or failure) therefore has no effect on
state.  Modelled as the identity it is on `MonState`. -/
def send_email_notification (st : MonState) (delivered : Bool) : MonState :=
  match delivered with
  | _ => st

/-- Embeds `JobBoardMonitor.run`: check all boards, then attempt the email when
`new_jobs` is non-empty (the final `save_job_history` persists externally
and changes no in-memory state). -/
def runOnce (now : Int) (boards : List Board) (delivered : Bool)
    (st : MonState) : MonState :=
  let st1 := check_all_boards now boards st
  if st1.new_jobs.isEmpty then st1 else send_email_notification st1 delivered

/-- Lookup of one history entry. -/
def histGet (st : MonState) (company job_id : String) : Option HistEntry :=
  alget ((alget st.job_history company).getD []) job_id

/-- What one company's scraping (before the `sent_jobs` update) does to
the state: `sent_jobs` untouched, every new `new_jobs` entry is for this
company and passed `is_truly_new_job` against the initial `sent_jobs`,
and existing history entries survive unchanged. -/
def StepOk (c : String) (st st' : MonState) : Prop :=
  st'.sent_jobs = st.sent_jobs
  ∧ (∀ e ∈ st'.new_jobs,
      e ∈ st.new_jobs ∨ (e.company = c ∧ is_truly_new_job st.sent_jobs e.job_id c = true))
  ∧ (∀ c' id en, histGet st c' id = some en → histGet st' c' id = some en)

/-- Demonstration run for the delivery-failure scenario: an empty state
and one Playwright source yielding a single fresh posting. -/
def stateC1 : MonState := ⟨[], [], []⟩

def boardsC1 : List Board :=
  [⟨"Acme", "https://acme.example/careers",
    BoardEnv.playwright (Except.ok ["Job ID: 123 Senior Product Manager"])⟩]

/-- Demonstration run for the freshness scenario: the posting has been in
history for 72 hours (`first_seen = -259200` with `now = 0`) and was
never notified. -/
def stateC3 : MonState :=
  ⟨[("Acme", [("Acme_77", ⟨"Old Product Manager", -259200⟩)])], [], []⟩

def boardsC3 : List Board :=
  [⟨"Acme", "https://acme.example/careers",
    BoardEnv.playwright (Except.ok ["Job ID: 77 Old Product Manager"])⟩]

/-- Demonstration state whose `sent_jobs` already holds the key that the
scrape of `boardsC1`-style catalog would derive, plus one prior novel
entry for that key. -/
def stateW2 : MonState :=
  ⟨[], [("Acme", ["Acme_123"])], [⟨"Acme", "Prev", "", "u", 0, "Acme_123"⟩]⟩

/-- Demonstration state with one pre-existing history entry that the
scrape re-observes. -/
def stateW6 : MonState :=
  ⟨[("Acme", [("Acme_9", ⟨"Keep Title", 42⟩)])], [], []⟩

def boardsW6 : List Board :=
  [⟨"Acme", "https://acme.example/careers",
    BoardEnv.playwright (Except.ok ["Job ID: 9 Product Manager"])⟩]

theorem alget_alset_self {β : Type} (l : List (String × β)) (k : String) (v : β) :
    alget (alset l k v) k = some v := by
  induction l with
  | nil => simp [alset, alget]
  | cons p rest ih =>
    obtain ⟨a, b⟩ := p
    by_cases h : a = k
    · simp [alset, alget, h]
    · simp [alset, alget, h, ih]

theorem alget_alset_other {β : Type} (l : List (String × β)) (k cK : String) (v : β)
    (h : cK ≠ k) : alget (alset l k v) cK = alget l cK := by
  induction l with
  | nil => simp [alset, alget, Ne.symm h]
  | cons p rest ih =>
    obtain ⟨a, b⟩ := p
    by_cases hak : a = k
    · subst hak
      have hac : ¬ a = cK := fun hh => h hh.symm
      simp [alset, alget, hac]
    · simp [alset, alget, hak, ih]

theorem alget_append_left {β : Type} (l1 l2 : List (String × β)) (k : String) (v : β)
    (h : alget l1 k = some v) : alget (l1 ++ l2) k = some v := by
  induction l1 with
  | nil => simp [alget] at h
  | cons p rest ih =>
    obtain ⟨a, b⟩ := p
    by_cases hak : a = k
    · simp [alget, hak] at h ⊢; exact h
    · simp [alget, hak] at h ⊢; exact ih h

theorem contains_iff_mem {l : List String} {a : String} :
    l.contains a = true ↔ a ∈ l := by
  induction l with
  | nil => simp
  | cons x xs ih =>
    simp only [List.contains_cons, Bool.or_eq_true, beq_iff_eq, ih, List.mem_cons]

theorem itn_false_of_mem (sent : List (String × List String)) (k c : String)
    (h : k ∈ (alget sent c).getD []) : is_truly_new_job sent k c = false := by
  unfold is_truly_new_job
  cases hc : alget sent c with
  | none => rw [hc] at h; simp at h
  | some l =>
    rw [hc] at h
    simp only [Option.getD_some] at h
    simp [h]

theorem stepOk_refl (c : String) (st : MonState) : StepOk c st st :=
  ⟨rfl, fun e he => Or.inl he, fun _ _ _ h => h⟩

theorem stepOk_trans {c : String} {st1 st2 st3 : MonState}
    (h12 : StepOk c st1 st2) (h23 : StepOk c st2 st3) : StepOk c st1 st3 := by
  obtain ⟨hs12, hn12, hh12⟩ := h12
  obtain ⟨hs23, hn23, hh23⟩ := h23
  refine ⟨hs23.trans hs12, ?_, fun a b en h => hh23 _ _ _ (hh12 _ _ _ h)⟩
  intro e he
  rcases hn23 e he with h2 | ⟨hc, hitn⟩
  · exact hn12 e h2
  · exact Or.inr ⟨hc, by rwa [hs12] at hitn⟩

theorem histInsert_sent (st : MonState) (c jid t : String) (now : Int) :
    (histInsert st c jid t now).sent_jobs = st.sent_jobs := by
  unfold histInsert; split <;> rfl

theorem histInsert_new (st : MonState) (c jid t : String) (now : Int) :
    (histInsert st c jid t now).new_jobs = st.new_jobs := by
  unfold histInsert; split <;> rfl

theorem histInsert_mono (st : MonState) (c jid t : String) (now : Int)
    (cQ idQ : String) (en : HistEntry) (h : histGet st cQ idQ = some en) :
    histGet (histInsert st c jid t now) cQ idQ = some en := by
  unfold histInsert
  split
  · exact h
  · unfold histGet at h ⊢
    by_cases hc : cQ = c
    · subst hc
      show alget ((alget (alset st.job_history cQ _) cQ).getD []) idQ = some en
      rw [alget_alset_self]
      exact alget_append_left _ _ _ _ h
    · show alget ((alget (alset st.job_history c _) cQ).getD []) idQ = some en
      rw [alget_alset_other _ _ _ _ hc]
      exact h

theorem histInsert_stepOk (c : String) (st : MonState) (co jid t : String) (now : Int) :
    StepOk c st (histInsert st co jid t now) :=
  ⟨histInsert_sent st co jid t now,
   by rw [histInsert_new]; exact fun e he => Or.inl he,
   fun a b en h => histInsert_mono st co jid t now a b en h⟩

theorem addJob_stepOk (co u loc : String) (now : Int) (st : MonState)
    (jobs : List (String × String)) (jid t : String) :
    StepOk co st (addJob co u loc now st jobs jid t).1 := by
  simp only [addJob]
  split
  next hitn =>
    refine ⟨?_, ?_, ?_⟩
    · show (histInsert st co jid t now).sent_jobs = st.sent_jobs
      exact histInsert_sent st co jid t now
    · intro e he
      simp only [List.mem_append, List.mem_singleton] at he
      rcases he with he | he
      · rw [histInsert_new] at he
        exact Or.inl he
      · subst he
        refine Or.inr ⟨rfl, ?_⟩
        rwa [histInsert_sent] at hitn
    · intro a b en h
      exact histInsert_mono st co jid t now a b en h
  · exact histInsert_stepOk co st co jid t now

theorem scrapeStep_stepOk (co u : String) (now : Int)
    (acc : MonState × List (String × String)) (t : String) :
    StepOk co acc.1 (scrapeStep co u now acc t).1 := by
  unfold scrapeStep
  split
  · exact stepOk_refl co acc.1
  · split
    · exact stepOk_refl co acc.1
    · split
      · exact stepOk_refl co acc.1
      · exact addJob_stepOk co u "" now acc.1 acc.2 _ _

theorem ghStepMain_stepOk (co tok : String) (now : Int)
    (acc : MonState × List (String × String)) (job : GHJob) :
    StepOk co acc.1 (ghStepMain co tok now acc job).1 := by
  unfold ghStepMain
  split
  · exact addJob_stepOk co (ghUrl tok) job.location now acc.1 acc.2 _ _
  · exact stepOk_refl co acc.1

theorem ghStepDept_stepOk (co tok : String) (now : Int)
    (acc : MonState × List (String × String)) (job : GHJob) :
    StepOk co acc.1 (ghStepDept co tok now acc job).1 := by
  unfold ghStepDept
  split
  · exact stepOk_refl co acc.1
  · split
    · exact addJob_stepOk co (ghUrl tok) job.location now acc.1 acc.2 _ _
    · exact stepOk_refl co acc.1

theorem foldl_stepOk {α : Type} {co : String}
    (f : MonState × List (String × String) → α → MonState × List (String × String))
    (hf : ∀ acc x, StepOk co acc.1 (f acc x).1) :
    ∀ (l : List α) (acc), StepOk co acc.1 (l.foldl f acc).1 := by
  intro l
  induction l with
  | nil => intro acc; exact stepOk_refl co acc.1
  | cons x xs ih =>
    intro acc
    rw [List.foldl_cons]
    exact stepOk_trans (hf acc x) (ih (f acc x))

theorem scrape_job_board_stepOk (co u : String) (fetch : Except Unit (List String))
    (now : Int) (st : MonState) :
    StepOk co st (scrape_job_board co u fetch now st).2 := by
  unfold scrape_job_board
  cases fetch with
  | error _ => exact stepOk_refl co st
  | ok texts =>
    exact foldl_stepOk (scrapeStep co u now) (scrapeStep_stepOk co u now) texts (st, [])

theorem scrape_greenhouse_stepOk (co tok : String) (api : Except Unit (List GHJob))
    (depts : List (List GHJob)) (now : Int) (st : MonState) :
    StepOk co st (scrape_greenhouse_api co tok api depts now st).2 := by
  unfold scrape_greenhouse_api
  cases api with
  | error _ => exact stepOk_refl co st
  | ok jl =>
    refine stepOk_trans
      (foldl_stepOk (ghStepMain co tok now) (ghStepMain_stepOk co tok now) jl (st, [])) ?_
    exact foldl_stepOk _
      (fun acc dj => foldl_stepOk (ghStepDept co tok now) (ghStepDept_stepOk co tok now) dj acc)
      (depts.take 10) _

theorem boardJobs_stepOk (now : Int) (st : MonState) (b : Board) :
    StepOk b.company st (boardJobs now st b).2 := by
  obtain ⟨co, u, env⟩ := b
  cases env with
  | playwright fetch => exact scrape_job_board_stepOk co u fetch now st
  | greenhouse tok api depts fallback =>
    simp only [boardJobs]
    split
    · exact stepOk_trans (scrape_greenhouse_stepOk co tok api depts now st)
        (scrape_job_board_stepOk co u fallback now _)
    · exact scrape_greenhouse_stepOk co tok api depts now st

theorem checkBoardStep_new (now : Int) (st : MonState) (b : Board) :
    ∀ e ∈ (checkBoardStep now st b).new_jobs,
      e ∈ st.new_jobs
      ∨ (e.company = b.company
          ∧ is_truly_new_job st.sent_jobs e.job_id b.company = true) :=
  fun e he => (boardJobs_stepOk now st b).2.1 e he

theorem checkBoardStep_hist (now : Int) (st : MonState) (b : Board)
    (c jid : String) (en : HistEntry) (h : histGet st c jid = some en) :
    histGet (checkBoardStep now st b) c jid = some en :=
  (boardJobs_stepOk now st b).2.2 c jid en h

theorem checkBoardStep_sent_other (now : Int) (st : MonState) (b : Board)
    (c : String) (h : c ≠ b.company) :
    alget (checkBoardStep now st b).sent_jobs c = alget st.sent_jobs c := by
  show alget (alset (boardJobs now st b).2.sent_jobs b.company _) c
    = alget st.sent_jobs c
  rw [alget_alset_other _ _ _ _ h, (boardJobs_stepOk now st b).1]

theorem updateSentList_len (cur ids : List String) :
    (updateSentList cur ids).length ≤ 200 := by
  unfold updateSentList takeLast
  rw [List.length_drop]
  omega

theorem checkBoardStep_sent_self (now : Int) (st : MonState) (b : Board) :
    ((alget (checkBoardStep now st b).sent_jobs b.company).getD []).length ≤ 200 := by
  simp only [checkBoardStep]
  rw [alget_alset_self]
  exact updateSentList_len _ _

theorem checkBoardStep_sent_bound (now : Int) (st : MonState) (b : Board) (c : String)
    (h : ((alget st.sent_jobs c).getD []).length ≤ 200) :
    ((alget (checkBoardStep now st b).sent_jobs c).getD []).length ≤ 200 := by
  by_cases hc : c = b.company
  · subst hc; exact checkBoardStep_sent_self now st b
  · rw [checkBoardStep_sent_other now st b c hc]; exact h

theorem checkAll_sent_bound (now : Int) :
    ∀ (boards : List Board) (st : MonState) (c : String),
      ((alget st.sent_jobs c).getD []).length ≤ 200 →
      ((alget (check_all_boards now boards st).sent_jobs c).getD []).length ≤ 200 := by
  intro boards
  induction boards with
  | nil => intro st c h; exact h
  | cons b bs ih =>
    intro st c h
    exact ih (checkBoardStep now st b) c (checkBoardStep_sent_bound now st b c h)

theorem checkAll_hist (now : Int) :
    ∀ (boards : List Board) (st : MonState) (c jid : String) (en : HistEntry),
      histGet st c jid = some en →
      histGet (check_all_boards now boards st) c jid = some en := by
  intro boards
  induction boards with
  | nil => intro st c jid en h; exact h
  | cons b bs ih =>
    intro st c jid en h
    exact ih (checkBoardStep now st b) c jid en (checkBoardStep_hist now st b c jid en h)

theorem checkAll_new_other (now : Int) :
    ∀ (boards : List Board) (st : MonState) (c : String),
      c ∉ boards.map Board.company →
      ∀ e ∈ (check_all_boards now boards st).new_jobs, e.company = c → e ∈ st.new_jobs := by
  intro boards
  induction boards with
  | nil => intro st c _ e he _; exact he
  | cons b bs ih =>
    intro st c hc e he hec
    simp only [List.map_cons, List.mem_cons, not_or] at hc
    have h1 := ih (checkBoardStep now st b) c hc.2 e he hec
    rcases checkBoardStep_new now st b e h1 with h2 | ⟨h3, _⟩
    · exact h2
    · exact absurd (hec.symm.trans h3) hc.1

theorem updateSentList_suffix (cur ids : List String) :
    List.IsSuffix (updateSentList cur ids) (appendNewIds cur ids) :=
  ⟨(appendNewIds cur ids).take ((appendNewIds cur ids).length - 200),
   List.take_append_drop _ _⟩

/-- Claim C2: for every source and key, a key present in the notified
list (`sent_jobs`) for that source at the start of a run never enters
that run's novel set (`new_jobs`), whatever the catalog contains: any
entry of the final `new_jobs` carrying that company and key was already
present before the run. -/
theorem no_renotification_within_run :
    ∀ (now : Int) (boards : List Board) (st : MonState) (c k : String),
      (boards.map Board.company).Nodup →
      k ∈ (alget st.sent_jobs c).getD [] →
      ∀ e ∈ (check_all_boards now boards st).new_jobs,
        e.company = c → e.job_id = k → e ∈ st.new_jobs := by
  intro now boards
  induction boards with
  | nil => intro st c k _ _ e he _ _; exact he
  | cons b bs ih =>
    intro st c k hnd hk e he hec hek
    rw [List.map_cons, List.nodup_cons] at hnd
    by_cases hbc : b.company = c
    · have hst1 := checkAll_new_other now bs (checkBoardStep now st b) c
        (hbc ▸ hnd.1) e he hec
      rcases checkBoardStep_new now st b e hst1 with h2 | ⟨_, hitn⟩
      · exact h2
      · rw [hek, hbc] at hitn
        rw [itn_false_of_mem st.sent_jobs k c hk] at hitn
        exact absurd hitn (by simp)
    · have hk1 : k ∈ (alget (checkBoardStep now st b).sent_jobs c).getD [] := by
        rw [checkBoardStep_sent_other now st b c (fun hh => hbc hh.symm)]
        exact hk
      have h1 := ih (checkBoardStep now st b) c k hnd.2 hk1 e he hec hek
      rcases checkBoardStep_new now st b e h1 with h2 | ⟨h3, _⟩
      · exact h2
      · exact absurd (hec.symm.trans h3) (fun hh => hbc hh.symm)

/-- Witness for C2: with `Acme_123` already notified, a run whose page
yields that very job again leaves `new_jobs` with only its pre-existing
entry. -/
theorem no_renotification_witness :
    (⟨"Acme", "Prev", "", "u", 0, "Acme_123"⟩ : NewJob) ∈ stateW2.new_jobs :=
  no_renotification_within_run 0 boardsC1 stateW2 "Acme" "Acme_123"
    (by decide) (by decide)
    ⟨"Acme", "Prev", "", "u", 0, "Acme_123"⟩ (by decide) rfl rfl

/-- Claim C6: observing an already-recorded `(source, key)` pair is a
no-op on its history entry: across an arbitrary run over arbitrary
sources, an existing `job_history` entry keeps exactly its stored title
and `first_seen`, and is never deleted by scraping. -/
theorem history_entry_immutable :
    ∀ (now : Int) (boards : List Board) (st : MonState) (c jid : String)
      (en : HistEntry),
      histGet st c jid = some en →
      histGet (check_all_boards now boards st) c jid = some en :=
  fun now boards st c jid en h => checkAll_hist now boards st c jid en h

/-- Witness for C6: an entry created at time 42 survives a run that
re-observes the same posting, title and first-seen intact. -/
theorem history_entry_immutable_witness :
    histGet (check_all_boards 0 boardsW6 stateW6) "Acme" "Acme_9"
      = some ⟨"Keep Title", 42⟩ :=
  history_entry_immutable 0 boardsW6 stateW6 "Acme" "Acme_9"
    ⟨"Keep Title", 42⟩ (by decide)

/-- Claim C7: after a source is processed the notified list for it holds
at most 200 entries, and the trim keeps a suffix of the appended list
(oldest entries evicted first). -/
theorem sent_list_bounded_and_fifo :
    ∀ (now : Int) (boards : List Board) (st : MonState) (c : String),
      (c ∈ boards.map Board.company →
        ((alget (check_all_boards now boards st).sent_jobs c).getD []).length ≤ 200)
      ∧ (∀ cur ids : List String,
          List.IsSuffix (updateSentList cur ids) (appendNewIds cur ids)) := by
  intro now boards st c
  refine ⟨?_, fun cur ids => updateSentList_suffix cur ids⟩
  induction boards generalizing st with
  | nil => intro hc; simp at hc
  | cons b bs ih =>
    intro hc
    rw [List.map_cons, List.mem_cons] at hc
    rcases hc with hc | hc
    · have h1 : ((alget (checkBoardStep now st b).sent_jobs c).getD []).length ≤ 200 := by
        rw [hc]; exact checkBoardStep_sent_self now st b
      exact checkAll_sent_bound now bs (checkBoardStep now st b) c h1
    · exact ih (checkBoardStep now st b) hc

/-- Witness for C7: a concrete processed source ends with a list of at
most 200 ids, and a concrete trim is a suffix of its appended list. -/
theorem sent_list_bounded_witness :
    (((alget (check_all_boards 0 boardsW6 stateW6).sent_jobs "Acme").getD []).length ≤ 200)
    ∧ List.IsSuffix (updateSentList ["a"] ["b"]) (appendNewIds ["a"] ["b"]) :=
  ⟨(sent_list_bounded_and_fifo 0 boardsW6 stateW6 "Acme").1 (by decide),
   (sent_list_bounded_and_fifo 0 boardsW6 stateW6 "Acme").2 ["a"] ["b"]⟩

/-- Claim C8: a source whose adapter fails is contained at the per-source
boundary: the run over `l1 ++ [failing] ++ l2` is exactly the run over
`l2` started from the post-failure state, the failing step adds nothing
to `new_jobs` or `job_history` (for the Playwright and the fully failing
Greenhouse environments alike), and only re-trims its own notified list. -/
theorem per_source_failure_isolated :
    ∀ (now : Int) (l1 l2 : List Board) (c url tok : String)
      (depts : List (List GHJob)) (st : MonState),
      (check_all_boards now (l1 ++ ⟨c, url, BoardEnv.playwright (Except.error ())⟩ :: l2) st
        = check_all_boards now l2
            (checkBoardStep now (check_all_boards now l1 st)
              ⟨c, url, BoardEnv.playwright (Except.error ())⟩))
      ∧ (checkBoardStep now st ⟨c, url, BoardEnv.playwright (Except.error ())⟩).new_jobs
          = st.new_jobs
      ∧ (checkBoardStep now st ⟨c, url, BoardEnv.playwright (Except.error ())⟩).job_history
          = st.job_history
      ∧ (checkBoardStep now st ⟨c, url, BoardEnv.playwright (Except.error ())⟩).sent_jobs
          = alset st.sent_jobs c (takeLast 200 ((alget st.sent_jobs c).getD []))
      ∧ (checkBoardStep now st
          ⟨c, url, BoardEnv.greenhouse tok (Except.error ()) depts (Except.error ())⟩).new_jobs
          = st.new_jobs
      ∧ (checkBoardStep now st
          ⟨c, url, BoardEnv.greenhouse tok (Except.error ()) depts (Except.error ())⟩).job_history
          = st.job_history := by
  intro now l1 l2 c url tok depts st
  refine ⟨?_, rfl, rfl, rfl, rfl, rfl⟩
  unfold check_all_boards
  rw [List.foldl_append, List.foldl_cons]

theorem appendNewIds_decomp :
    ∀ (ids cur : List String), ∃ tail : List String,
      appendNewIds cur ids = cur ++ tail ∧ tail.length ≤ ids.length
        ∧ ∀ i ∈ ids, i ∈ cur ∨ i ∈ tail := by
  intro ids
  induction ids with
  | nil =>
    intro cur
    exact ⟨[], by simp [appendNewIds], by simp, by simp⟩
  | cons i is ih =>
    intro cur
    simp only [appendNewIds, List.foldl_cons] at ih ⊢
    by_cases h : cur.contains i
    · obtain ⟨tail, h1, h2, h3⟩ := ih cur
      refine ⟨tail, ?_, Nat.le_succ_of_le h2, ?_⟩
      · rw [if_pos h]; exact h1
      · intro j hj
        rcases List.mem_cons.1 hj with hj1 | hj2
        · subst hj1; exact Or.inl (contains_iff_mem.1 h)
        · exact h3 j hj2
    · obtain ⟨tail, h1, h2, h3⟩ := ih (cur ++ [i])
      refine ⟨i :: tail, ?_, by simpa using Nat.succ_le_succ h2, ?_⟩
      · rw [if_neg h, h1]
        simp
      · intro j hj
        rcases List.mem_cons.1 hj with hj1 | hj2
        · subst hj1; exact Or.inr (List.mem_cons_self _ _)
        · rcases h3 j hj2 with hc | ht
          · rcases List.mem_append.1 hc with hcc | hci
            · exact Or.inl hcc
            · simp only [List.mem_singleton] at hci
              subst hci
              exact Or.inr (List.mem_cons_self _ _)
          · exact Or.inr (List.mem_cons_of_mem _ ht)

theorem mem_drop_append {α : Type} :
    ∀ (cur : List α) (k : Nat) (tail : List α) (x : α),
      k ≤ cur.length → x ∈ tail → x ∈ (cur ++ tail).drop k := by
  intro cur
  induction cur with
  | nil =>
    intro k tail x hk hx
    have hz : k = 0 := Nat.le_zero.1 hk
    subst hz
    simpa using hx
  | cons c cs ih =>
    intro k tail x hk hx
    cases k with
    | zero => exact List.mem_append.2 (Or.inr hx)
    | succ j =>
      simp only [List.cons_append, List.drop_succ_cons]
      exact ih j tail x (Nat.le_of_succ_le_succ hk) hx

theorem updateSentList_gains (cur ids : List String) (i : String)
    (hin : i ∈ ids) (hnot : i ∉ cur) (hlen : ids.length ≤ 200) :
    i ∈ updateSentList cur ids := by
  obtain ⟨tail, h1, h2, h3⟩ := appendNewIds_decomp ids cur
  have hit : i ∈ tail := by
    rcases h3 i hin with hc | ht
    · exact absurd hc hnot
    · exact ht
  unfold updateSentList takeLast
  rw [h1]
  apply mem_drop_append
  · rw [List.length_append]
    omega
  · exact hit

/-- Counterexample for C1: the notified state gains a key although the
mail delivery failed (`delivered = false`), refuting "gains a key only
after confirmed delivery; left unchanged on failure". -/
theorem sent_gains_key_despite_failed_delivery :
    "Acme_123" ∉ (alget stateC1.sent_jobs "Acme").getD []
    ∧ "Acme_123" ∈ (alget (runOnce 0 boardsC1 false stateC1).sent_jobs "Acme").getD [] := by
  decide

/-- Claim C1 as amended: `sent_jobs` is updated during `check_all_boards`
at scrape time — the run's final state is independent of the delivery
outcome — and every freshly scraped key (when at most 200 ids are
scraped) enters the per-source notified list then and there. -/
theorem sent_update_independent_of_delivery :
    (∀ (now : Int) (boards : List Board) (st : MonState) (delivered : Bool),
        runOnce now boards delivered st = check_all_boards now boards st)
    ∧ (∀ (cur ids : List String) (i : String),
        i ∈ ids → i ∉ cur → ids.length ≤ 200 → i ∈ updateSentList cur ids) := by
  constructor
  · intro now boards st d
    simp [runOnce, send_email_notification]
  · exact fun cur ids i h1 h2 h3 => updateSentList_gains cur ids i h1 h2 h3

/-- Witness for C1's amended claim at a concrete run and a concrete trim. -/
theorem sent_update_independent_witness :
    runOnce 0 boardsC1 false stateC1 = check_all_boards 0 boardsC1 stateC1
    ∧ "b" ∈ updateSentList ["a"] ["b"] :=
  ⟨sent_update_independent_of_delivery.1 0 boardsC1 stateC1 false,
   sent_update_independent_of_delivery.2 ["a"] ["b"] "b" (by decide) (by decide)
     (by decide)⟩

/-- Claim C3 (code evaluated at the failing input): a posting whose
effective posting time (its `first_seen`, 72 h before `now`, far outside
any 24-48 h freshness window) is nevertheless included in the run's
novel set — the code consults only `sent_jobs`, never any posting time. -/
theorem stale_job_included_in_new_jobs :
    histGet stateC3 "Acme" "Acme_77" = some ⟨"Old Product Manager", -259200⟩
    ∧ (check_all_boards 0 boardsC3 stateC3).new_jobs
        = [⟨"Acme", "Job ID: 77 Old Product Manager", "",
            "https://acme.example/careers", 0, "Acme_77"⟩]
    ∧ (0 : Int) - (-259200) > 48 * 3600 := by
  refine ⟨by decide, by decide, by decide⟩

theorem foldl_eq_filter {α : Type} (f : List α → α → List α) (p : α → Bool)
    (hf : ∀ acc q, f acc q = if p q then acc ++ [q] else acc) :
    ∀ (es acc : List α), es.foldl f acc = acc ++ es.filter p := by
  intro es
  induction es with
  | nil => intro acc; simp
  | cons q qs ih =>
    intro acc
    rw [List.foldl_cons, List.filter_cons, hf]
    by_cases hq : p q
    · rw [if_pos hq, if_pos hq, ih]
      simp
    · rw [if_neg hq, if_neg hq, ih]

theorem cleanModern_eq_filter (parse : String → Option Int) (now : Int)
    (es : List (String × JobInfo)) :
    cleanModern parse (now - 7 * 86400) es
      = es.filter (fun q => keepEntry parse now q.2) := by
  unfold cleanModern
  rw [foldl_eq_filter _ (fun q => keepEntry parse now q.2) ?_ es []]
  · simp
  · intro acc q
    unfold keepEntry
    cases hfs : q.2.first_seen with
    | none => simp [hfs]
    | some s =>
      cases hp : parse s with
      | none => simp [hfs, hp]
      | some t => simp [hfs, hp]

/-- Claim C9: `clean_old_jobs` keeps a dict-format entry exactly when its
`first_seen` is present and either fails to parse or parses newer than
seven days before `now`; entries without `first_seen` are dropped, and a
legacy list-format company is truncated to its last 100 items. -/
theorem clean_old_jobs_characterization :
    ∀ (parse : String → Option Int) (now : Int)
      (data : List (String × CompanyJobs)),
      clean_old_jobs parse now data
        = data.map (fun pc => (pc.1,
            match pc.2 with
            | CompanyJobs.legacy ids => CompanyJobs.legacy (takeLast 100 ids)
            | CompanyJobs.modern es =>
              CompanyJobs.modern (es.filter (fun q => keepEntry parse now q.2)))) := by
  intro parse now data
  induction data with
  | nil => rfl
  | cons pcj rest ih =>
    obtain ⟨c, cj⟩ := pcj
    cases cj with
    | legacy ids => simp [clean_old_jobs, ih]
    | modern es =>
      have hstep : clean_old_jobs parse now ((c, CompanyJobs.modern es) :: rest)
          = (c, CompanyJobs.modern (cleanModern parse (now - 7 * 86400) es))
            :: clean_old_jobs parse now rest := rfl
      rw [hstep, ih, cleanModern_eq_filter]
      rfl

/-- Counterexample for C5: a text that passes every earlier classifier
rule (length, junk phrases, stoplist) and contains no role keyword is
nevertheless accepted, because the keyword rule only applies to texts
shorter than 20 characters. -/
theorem long_text_without_keywords_accepted :
    5 ≤ "Quarterly Business Review Offsite".length
    ∧ junk_patterns.all (fun p =>
        ! hasSubstr (pyStrip (lowerList "Quarterly Business Review Offsite".toList))
          p.toList) = true
    ∧ stop_words.all (fun w =>
        ! decide (pyStrip (lowerList "Quarterly Business Review Offsite".toList)
          = w.toList)) = true
    ∧ job_keywords.all (fun k =>
        ! hasSubstr (pyStrip (lowerList "Quarterly Business Review Offsite".toList))
          k.toList) = true
    ∧ is_junk_text "Quarterly Business Review Offsite" = false := by
  decide

/-- Claim C5 as amended: the role-keyword requirement applies only to
texts shorter than 20 characters; such a text containing none of the
configured keywords is always classified as junk. -/
theorem short_text_without_keywords_rejected :
    ∀ text : String, text.length < 20 →
      job_keywords.any
        (fun k => hasSubstr (pyStrip (lowerList text.toList)) k.toList) = false →
      is_junk_text text = true := by
  intro t h1 h2
  unfold is_junk_text
  split
  · rfl
  · split
    · rfl
    · split
      · rfl
      all_goals rw [h2]
      all_goals decide

/-- Witness for C5's amended claim: a short non-keyword text is junk. -/
theorem short_text_without_keywords_witness :
    is_junk_text "Sales Associate II" = true :=
  short_text_without_keywords_rejected "Sales Associate II" (by decide) (by decide)

/-- Counterexample for C4: with no external id and an absolute URL
present, the code's key is the md5 of `source_title` — not the spec
resolver's source-plus-md5-of-URL; a URL is not even an input of
`extract_job_id`. -/
theorem extract_job_id_ignores_url :
    extract_job_id "Senior Product Manager" "Acme"
      ≠ resolve_key_spec "Acme" "Senior Product Manager"
          "https://jobs.acme.example/pm-roles" none := by
  decide

/-- Claim C4 as amended: the canonical key is derived deterministically
from the source name and the extracted text alone, in priority order: a
matched job-id pattern yields `source_<id>`; otherwise the key is the md5
of `source_<cleaned title>`, so texts differing only in stripped trailing
metadata share one key.  No URL takes part. -/
theorem extract_job_id_key_structure :
    (∀ (company t1 t2 : String),
        findPatternId t1.toList = none → findPatternId t2.toList = none →
        cleanTitle t1.toList = cleanTitle t2.toList →
        extract_job_id t1 company = extract_job_id t2 company)
    ∧ (∀ (company t : String) (g : List Char),
        findPatternId t.toList = some g →
        extract_job_id t company = company ++ "_" ++ String.mk g) := by
  constructor
  · intro co t1 t2 h1 h2 hcl
    unfold extract_job_id
    rw [h1, h2, hcl]
  · intro co t g h
    unfold extract_job_id
    rw [h]

/-- Witness for C4's amended claim: metadata-stripped titles share a key,
and a pattern-extracted id shapes the key directly. -/
theorem extract_job_id_structure_witness :
    extract_job_id "Senior PM Posted Today" "Acme" = extract_job_id "Senior PM" "Acme"
    ∧ extract_job_id "Job ID: 55" "Acme" = "Acme" ++ "_" ++ String.mk ['5', '5'] :=
  ⟨extract_job_id_key_structure.1 "Acme" "Senior PM Posted Today" "Senior PM"
      (by decide) (by decide) (by decide),
   extract_job_id_key_structure.2 "Acme" "Job ID: 55" ['5', '5'] (by decide)⟩

theorem nodup_snoc {α : Type} {l : List α} {a : α}
    (hl : l.Nodup) (ha : a ∉ l) : (l ++ [a]).Nodup := by
  induction l with
  | nil => simp
  | cons x xs ih =>
    rw [List.cons_append, List.nodup_cons]
    rw [List.nodup_cons] at hl
    constructor
    · intro hx
      rcases List.mem_append.1 hx with h1 | h1
      · exact hl.1 h1
      · simp only [List.mem_singleton] at h1
        exact ha (h1 ▸ List.mem_cons_self x xs)
    · exact ih hl.2 (fun hh => ha (List.mem_cons_of_mem x hh))

theorem addJob_jobs_eq (co u loc : String) (now : Int) (st : MonState)
    (jobs : List (String × String)) (jid t : String) :
    (addJob co u loc now st jobs jid t).2 = jobs ++ [(jid, t)] := by
  simp only [addJob]
  split <;> rfl

theorem foldl_keys_nodup {α : Type}
    (f : MonState × List (String × String) → α → MonState × List (String × String))
    (hf : ∀ acc x, (acc.2.map Prod.fst).Nodup → ((f acc x).2.map Prod.fst).Nodup) :
    ∀ (l : List α) (acc), (acc.2.map Prod.fst).Nodup →
      ((l.foldl f acc).2.map Prod.fst).Nodup := by
  intro l
  induction l with
  | nil => intro acc h; exact h
  | cons x xs ih =>
    intro acc h
    rw [List.foldl_cons]
    exact ih (f acc x) (hf acc x h)

theorem scrapeStep_keys_nodup (co u : String) (now : Int)
    (acc : MonState × List (String × String)) (t : String)
    (h : (acc.2.map Prod.fst).Nodup) :
    ((scrapeStep co u now acc t).2.map Prod.fst).Nodup := by
  unfold scrapeStep
  split
  · exact h
  · split
    · exact h
    · split
      · exact h
      next hdup =>
        rw [addJob_jobs_eq]
        simp only [List.map_append, List.map_cons, List.map_nil]
        exact nodup_snoc h (fun hm => hdup (contains_iff_mem.2 hm))

theorem ghStepDept_keys_nodup (co tok : String) (now : Int)
    (acc : MonState × List (String × String)) (job : GHJob)
    (h : (acc.2.map Prod.fst).Nodup) :
    ((ghStepDept co tok now acc job).2.map Prod.fst).Nodup := by
  unfold ghStepDept
  split
  next hdup =>
    exact h
  next hdup =>
    split
    · rw [addJob_jobs_eq]
      simp only [List.map_append, List.map_cons, List.map_nil]
      exact nodup_snoc h (fun hm => hdup (contains_iff_mem.2 hm))
    · exact h

/-- Claim C10 as amended: within one Playwright scrape every derived key
appears at most once (a later candidate with an already-seen key is
skipped); in the Greenhouse scrape the department loop skips already
emitted keys, so it preserves distinctness of whatever the main loop
emitted — but the main loop itself does not deduplicate. -/
theorem scrape_keys_deduplicated :
    (∀ (company url : String) (fetch : Except Unit (List String)) (now : Int)
        (st : MonState),
        ((scrape_job_board company url fetch now st).1.map Prod.fst).Nodup)
    ∧ (∀ (company tok : String) (jl : List GHJob) (depts : List (List GHJob))
          (now : Int) (st : MonState),
        ((scrape_greenhouse_api company tok (Except.ok jl) [] now st).1.map
          Prod.fst).Nodup →
        ((scrape_greenhouse_api company tok (Except.ok jl) depts now st).1.map
          Prod.fst).Nodup) := by
  constructor
  · intro co u fetch now st
    cases fetch with
    | error _ => simp [scrape_job_board]
    | ok texts =>
      show ((texts.foldl (scrapeStep co u now) (st, [])).2.map Prod.fst).Nodup
      exact foldl_keys_nodup _ (fun acc t => scrapeStep_keys_nodup co u now acc t)
        texts (st, []) (by simp)
  · intro co tok jl depts now st h
    show (((depts.take 10).foldl (fun a dj => dj.foldl (ghStepDept co tok now) a)
        (jl.foldl (ghStepMain co tok now) (st, []))).2.map Prod.fst).Nodup
    exact foldl_keys_nodup _
      (fun acc dj hh =>
        foldl_keys_nodup _ (fun a j => ghStepDept_keys_nodup co tok now a j) dj acc hh)
      (depts.take 10) _ h

/-- Counterexample for C10: the main Greenhouse jobs loop has no
duplicate check — the same id appearing twice in one API response is
emitted twice, so one scrape's returned list repeats a key. -/
theorem greenhouse_main_loop_emits_duplicate_key :
    (scrape_greenhouse_api "Acme" "acme"
        (Except.ok [⟨"9", "Product Manager", "Remote"⟩, ⟨"9", "Product Manager", "Remote"⟩])
        [] 0 stateC1).1
      = [("Acme_gh_9", "Product Manager"), ("Acme_gh_9", "Product Manager")]
    ∧ ¬ ((scrape_greenhouse_api "Acme" "acme"
        (Except.ok [⟨"9", "Product Manager", "Remote"⟩, ⟨"9", "Product Manager", "Remote"⟩])
        [] 0 stateC1).1.map Prod.fst).Nodup := by
  decide

/-- Witness for C10's amended claim at concrete scrapes: a repeated page
element is not re-emitted, and the department loop skips a key the main
loop already produced. -/
theorem scrape_keys_deduplicated_witness :
    ((scrape_job_board "Acme" "https://acme.example/careers"
        (Except.ok ["Job ID: 5 Product Manager", "Job ID: 5 Product Manager"])
        0 stateC1).1.map Prod.fst).Nodup
    ∧ ((scrape_greenhouse_api "Acme" "acme"
        (Except.ok [⟨"1", "Product Manager", "Remote"⟩])
        [[⟨"1", "Product Lead", "Remote"⟩, ⟨"2", "Program Manager", "USA"⟩]]
        0 stateC1).1.map Prod.fst).Nodup :=
  ⟨scrape_keys_deduplicated.1 "Acme" "https://acme.example/careers" _ 0 stateC1,
   scrape_keys_deduplicated.2 "Acme" "acme" _ _ 0 stateC1 (by decide)⟩
